import Mathlib

/-!
Verification of the ark secure-storage core: a shallow embedding of the
cryptographic primitive (`internal/core/crypto`), the encrypted key-value
store (`internal/storage`), the directory lock engine and service
(`internal/features/dirlock`), the master-key lifecycle
(`internal/core/config`), and the vault manager (`internal/features/vault`).

Machine bytes are modelled as `Nat` (the only arithmetic performed on byte
values is XOR, so no modular truncation arises).  The AES block cipher lives
in the Go standard library, outside this repository; it is threaded through
as an explicit function argument `C : key → block → block`, which suffices
because GCM uses the block cipher only in the forward direction.  Randomness
(nonces, salts), clock reads and interactive input are passed as explicit
arguments.
-/

namespace Ark

abbrev Bytes := List Nat

/-- Source `crypto.KeySize`: encryption key size in bytes. -/
def KeySize : Nat := 32

/-- Source `crypto.NonceSize`: GCM nonce size in bytes. -/
def NonceSize : Nat := 12

/-- Source `crypto.SaltSize`: salt size in bytes for key derivation. -/
def SaltSize : Nat := 32

/-- Big-endian interpretation of a byte list as a natural number. -/
def beToNat (bs : Bytes) : Nat := bs.foldl (fun acc b => acc * 256 + b % 256) 0

/-- The low `k` bytes of `n`, big-endian. -/
def natToBe : Nat → Nat → Bytes
  | 0, _ => []
  | k + 1, n => natToBe k (n / 256) ++ [n % 256]

/-- Reduction constant of the GHASH field GF(2^128). -/
def R128 : Nat := 0xe1 * 2 ^ 120

/-- One step of the shift-and-add GF(2^128) multiplication. -/
def gf128Step (z v : Nat) (bit : Bool) : Nat × Nat :=
  (if bit then z ^^^ v else z, if v % 2 = 1 then v / 2 ^^^ R128 else v / 2)

/-- Folding step: `gf128MulAux i z v x` folds `gf128Step` over bits `i-1, …, 0` of `x`. -/
def gf128MulAux : Nat → Nat → Nat → Nat → Nat
  | 0, z, _, _ => z
  | i + 1, z, v, x =>
    let p := gf128Step z v (x.testBit i)
    gf128MulAux i p.1 p.2 x

/-- Multiplication in GF(2^128) as used by GHASH (SP 800-38D). -/
def gf128Mul (x y : Nat) : Nat := gf128MulAux 128 0 y x

/-- Split a byte list into 16-byte chunks. -/
def chunks16 (bs : Bytes) : List Bytes :=
  if h : bs = [] then []
  else bs.take 16 :: chunks16 (bs.drop 16)
termination_by bs.length
decreasing_by
  simp only [List.length_drop]
  have := List.length_pos.mpr h
  omega

/-- Zero-pad a byte list on the right to a multiple of 16 bytes. -/
def pad16 (bs : Bytes) : Bytes := bs ++ List.replicate ((16 - bs.length % 16) % 16) 0

/-- GHASH over a block sequence with hash subkey `H`. -/
def ghashBlocks (H : Nat) (blocks : List Bytes) : Nat :=
  blocks.foldl (fun y b => gf128Mul (y ^^^ beToNat b) H) 0

/-- GHASH of additional data `aad` and ciphertext `ct`, including the final
length block (SP 800-38D). -/
def ghash (H : Nat) (aad ct : Bytes) : Nat :=
  ghashBlocks H (chunks16 (pad16 aad) ++ chunks16 (pad16 ct)
    ++ [natToBe 8 (aad.length * 8) ++ natToBe 8 (ct.length * 8)])

/-- Counter block `nonce ∥ i` (32-bit big-endian counter); with a 12-byte
nonce GCM uses the nonce itself followed by the counter. -/
def ctrBlock (nonce : Bytes) (i : Nat) : Bytes := nonce ++ natToBe 4 (i % 2 ^ 32)

/-- Produces `n` consecutive CTR keystream blocks starting at counter value `i`. -/
def ksBlocks (E : Bytes → Bytes) (nonce : Bytes) : Nat → Nat → Bytes
  | 0, _ => []
  | n + 1, i => E (ctrBlock nonce i) ++ ksBlocks E nonce n (i + 1)

/-- CTR keystream of length `len`; GCM encryption starts the counter at 2. -/
def keystream (E : Bytes → Bytes) (nonce : Bytes) (len : Nat) : Bytes :=
  (ksBlocks E nonce ((len + 15) / 16) 2).take len

/-- Pointwise XOR of two byte lists. -/
def xorBytes (a b : Bytes) : Bytes := List.zipWith (· ^^^ ·) a b

/-- GCM authentication tag for ciphertext `ct` and empty additional data:
`GHASH` masked with the encryption of the initial counter block. -/
def gcmTag (E : Bytes → Bytes) (nonce ct : Bytes) : Bytes :=
  xorBytes (natToBe 16 (ghash (beToNat (E (List.replicate 16 0))) [] ct))
    (E (ctrBlock nonce 1))

/-- Model of `cipher.AEAD.Seal` for GCM with empty additional data: ciphertext ∥ tag. -/
def gcmSeal (E : Bytes → Bytes) (nonce p : Bytes) : Bytes :=
  let ct := xorBytes p (keystream E nonce p.length)
  ct ++ gcmTag E nonce ct

/-- Byte-sequence comparison as performed (in constant time) by GCM when
checking the tag; `true` iff the two lists are equal. -/
def ctCompare : Bytes → Bytes → Bool
  | [], [] => true
  | x :: xs, y :: ys => x == y && ctCompare xs ys
  | _, _ => false

/-- Model of `cipher.AEAD.Open` for GCM with empty additional data: split off the
trailing 16-byte tag, recompute it, and decrypt only if it matches. -/
def gcmOpen (E : Bytes → Bytes) (nonce data : Bytes) : Option Bytes :=
  if data.length < 16 then none
  else
    let ct := data.take (data.length - 16)
    let tag := data.drop (data.length - 16)
    if ctCompare tag (gcmTag E nonce ct) then
      some (xorBytes ct (keystream E nonce ct.length))
    else none

/-- Source `crypto.Encryptor`: holds the AES-256 key. -/
structure Encryptor where
  key : Bytes
deriving DecidableEq, Repr

/-- Source `crypto.NewEncryptor`: rejects keys that are not 32 bytes long. -/
def NewEncryptor (key : Bytes) : Except String Encryptor :=
  if key.length = KeySize then .ok ⟨key⟩
  else .error ("invalid key size: expected 32 bytes, got " ++ toString key.length)

/-- Source `Encryptor.Encrypt`: AES-256-GCM with a fresh random 12-byte nonce
(passed here as the explicit argument `nonce`) prepended to the sealed
output, exactly as `gcm.Seal(nonce, nonce, plaintext, nil)`. -/
def Encryptor.Encrypt (C : Bytes → Bytes → Bytes) (e : Encryptor)
    (nonce p : Bytes) : Bytes :=
  nonce ++ gcmSeal (C e.key) nonce p

/-- Source `Encryptor.Decrypt`: checks the minimum length, splits off the 12-byte
nonce, and opens the remainder with GCM. -/
def Encryptor.Decrypt (C : Bytes → Bytes → Bytes) (e : Encryptor)
    (data : Bytes) : Except String Bytes :=
  if data.length < NonceSize then .error "ciphertext too short"
  else
    match gcmOpen (C e.key) (data.take NonceSize) (data.drop NonceSize) with
    | some p => .ok p
    | none => .error "failed to decrypt"

/-- Source `crypto.DeriveKey`: Argon2id itself is external (`golang.org/x/crypto`),
passed as the function argument `argon2`; the 32-byte salt-size check is
from the source. -/
def DeriveKey (argon2 : String → Bytes → Bytes) (password : String)
    (salt : Bytes) : Except String Bytes :=
  if salt.length = SaltSize then .ok (argon2 password salt)
  else .error ("invalid salt size: expected 32 bytes, got " ++ toString salt.length)


/-!
The encrypted key-value store (`internal/storage/database.go`).  BoltDB is
modelled as an association list of buckets, each an association list of keys
to raw stored bytes.  Per bbolt semantics, `Put` overwrites an existing key,
`Delete` of an absent key does nothing and returns nil, and a nil bucket
handle makes the operation fail.  Bucket keys are unique in bbolt, so
`assocErase` removing every binding of a key coincides with bbolt deletion.
JSON serialization (`encoding/json`, external) is passed as explicit
`marshal`/`unmarshal` arguments; `json.Marshal` succeeds on the
JSON-serializable values the claims range over, so `marshal` is total.
-/

def assocFind {α : Type} : List (String × α) → String → Option α
  | [], _ => none
  | (n, v) :: rest, key => if n = key then some v else assocFind rest key

def assocPut {α : Type} : List (String × α) → String → α → List (String × α)
  | [], key, v => [(key, v)]
  | (n, w) :: rest, key, v =>
    if n = key then (n, v) :: rest else (n, w) :: assocPut rest key v

def assocErase {α : Type} : List (String × α) → String → List (String × α)
  | [], _ => []
  | (n, w) :: rest, key =>
    if n = key then assocErase rest key else (n, w) :: assocErase rest key
/-- Error kinds surfaced by `storage.Database` operations, one constructor
per `fmt.Errorf` site in the source. -/
inductive DBError
  | bucketNotFound (bucket : String)
  | keyNotFound (key bucket : String)
  | decryptFailed
  | unmarshalFailed
deriving DecidableEq, Repr

/-- Source `storage.Database`: the bbolt handle (modelled by its bucket contents)
plus the per-value `Encryptor` built from the master key. -/
structure Database where
  enc : Encryptor
  buckets : List (String × List (String × Bytes))
deriving DecidableEq, Repr

/-- Source `Database.Set`: JSON-marshal, encrypt under the master key with a fresh
nonce (explicit argument), and upsert into the bucket. -/
def Database.Set {α : Type} (C : Bytes → Bytes → Bytes) (marshal : α → Bytes)
    (nonce : Bytes) (d : Database) (bucket key : String) (value : α) :
    Except DBError Database :=
  let encryptedData := d.enc.Encrypt C nonce (marshal value)
  match assocFind d.buckets bucket with
  | none => .error (.bucketNotFound bucket)
  | some b =>
    .ok { d with buckets := assocPut d.buckets bucket (assocPut b key encryptedData) }

/-- Source `Database.Get`: read the raw blob, decrypt, JSON-unmarshal. -/
def Database.Get {α : Type} (C : Bytes → Bytes → Bytes)
    (unmarshal : Bytes → Option α) (d : Database) (bucket key : String) :
    Except DBError α :=
  match assocFind d.buckets bucket with
  | none => .error (.bucketNotFound bucket)
  | some b =>
    match assocFind b key with
    | none => .error (.keyNotFound key bucket)
    | some data =>
      match d.enc.Decrypt C data with
      | .error _ => .error .decryptFailed
      | .ok plaintext =>
        match unmarshal plaintext with
        | none => .error .unmarshalFailed
        | some v => .ok v

/-- Source `Database.Delete`: removing an absent key is a no-op (bbolt), a missing
bucket is an error. -/
def Database.Delete (d : Database) (bucket key : String) : Except DBError Database :=
  match assocFind d.buckets bucket with
  | none => .error (.bucketNotFound bucket)
  | some b => .ok { d with buckets := assocPut d.buckets bucket (assocErase b key) }

/-- Source `Database.Exists`: a key exists iff its stored blob is present. -/
def Database.Exists (d : Database) (bucket key : String) : Except DBError Bool :=
  match assocFind d.buckets bucket with
  | none => .error (.bucketNotFound bucket)
  | some b => .ok (assocFind b key).isSome

/-!
Locked-directory records (`internal/storage/models`, `LockedDirectory`) and
the directory lock engine and service (`internal/features/dirlock`).
-/

/-- Source `models.LockedDirectory`.  The `Password` field carries the struct tag
`json:"-"` and is therefore excluded from serialization. -/
structure LockedDirectory where
  Path : String
  Password : String
  UseMaster : Bool
  Hidden : Bool
  Encrypted : Bool
  LockedAt : Nat
  LastAccessed : Nat
  Metadata : List (String × String)
deriving DecidableEq, Repr

/-- The JSON image of a `LockedDirectory`: exactly the serialized fields.
There is no `Password` field (tag `json:"-"`) and no salt field at all. -/
structure LockedDirectoryJSON where
  Path : String
  UseMaster : Bool
  Hidden : Bool
  Encrypted : Bool
  LockedAt : Nat
  LastAccessed : Nat
  Metadata : List (String × String)
deriving DecidableEq, Repr

/-- Model of `json.Marshal` for a `LockedDirectory`, at the field level. -/
def LockedDirectory.marshalRecord (d : LockedDirectory) : LockedDirectoryJSON :=
  ⟨d.Path, d.UseMaster, d.Hidden, d.Encrypted, d.LockedAt, d.LastAccessed, d.Metadata⟩

/-- Model of `json.Unmarshal` into a `LockedDirectory`: `Password` receives the
string zero value `""` since it is never serialized. -/
def LockedDirectoryJSON.unmarshalRecord (j : LockedDirectoryJSON) : LockedDirectory :=
  ⟨j.Path, "", j.UseMaster, j.Hidden, j.Encrypted, j.LockedAt, j.LastAccessed, j.Metadata⟩

/-- Source `models.NewLockedDirectory`: `Encrypted := true`, `LockedAt := now`,
empty metadata, zero values elsewhere. -/
def NewLockedDirectory (path : String) (useMaster hidden : Bool) (now : Nat) :
    LockedDirectory :=
  ⟨path, "", useMaster, hidden, true, now, 0, []⟩

/-- Source `LockedDirectory.SetPassword`. -/
def LockedDirectory.SetPassword (d : LockedDirectory) (password : String) :
    LockedDirectory :=
  { d with Password := password, UseMaster := false }

/-- Source `LockedDirectory.SetMetadata`. -/
def LockedDirectory.SetMetadata (d : LockedDirectory) (key value : String) :
    LockedDirectory :=
  { d with Metadata := assocPut d.Metadata key value }

/-- Source `LockedDirectory.GetPassword`: the password to use for this directory. -/
def LockedDirectory.GetPassword (d : LockedDirectory) (masterPassword : String) :
    String :=
  if d.UseMaster then masterPassword else d.Password

/-- Filesystem state at the target path: a live directory of (relative
path, contents) pairs, the single encrypted archive file, or nothing. -/
inductive PathState
  | dir (files : List (String × Bytes))
  | archiveFile (entries : List (String × Bytes))
  | absent
deriving DecidableEq, Repr

/-- State touched by the dirlock `Service`: the filesystem at the target
absolute path, and the `locked_dirs` bucket entries as JSON-level records
(i.e. after the `json:"-"` password drop; the store's per-value encryption
layer is covered by the `Database` model). -/
structure ServiceState where
  path : PathState
  lockedDirs : List (String × LockedDirectoryJSON)
deriving DecidableEq, Repr

/-- Source `Service.getMasterKey`: the source's placeholder returns a fresh
32-byte all-zero slice rather than the configured master key. -/
def Service.getMasterKey : Bytes := List.replicate 32 0

/-- Source `dirlock.encryptContent`: AES-256-GCM with a fresh random nonce
(explicit argument) prepended. -/
def encryptContent (C : Bytes → Bytes → Bytes) (key nonce content : Bytes) : Bytes :=
  nonce ++ gcmSeal (C key) nonce content

/-- Source `dirlock.decryptContent`: split off the 12-byte nonce and open with
GCM; the authentication error of `gcm.Open` is propagated. -/
def decryptContent (C : Bytes → Bytes → Bytes) (key encrypted : Bytes) :
    Except String Bytes :=
  if encrypted.length < NonceSize then .error "ciphertext too short"
  else
    match gcmOpen (C key) (encrypted.take NonceSize) (encrypted.drop NonceSize) with
    | some p => .ok p
    | none => .error "cipher: message authentication failed"

/-- The per-file loop of `dirlock.EncryptDirectory`: each regular file, in
walk order, is encrypted with its own fresh nonce (`nonceAt i`) and becomes
one archive entry under its relative path. -/
def encryptFiles (C : Bytes → Bytes → Bytes) (key : Bytes) (nonceAt : Nat → Bytes) :
    Nat → List (String × Bytes) → List (String × Bytes)
  | _, [] => []
  | i, (p, content) :: rest =>
    (p, encryptContent C key (nonceAt i) content) ::
      encryptFiles C key nonceAt (i + 1) rest

/-- The extraction loop of `dirlock.DecryptDirectory`: decrypt the archive
entries in order, aborting on the first failure. -/
def decryptFiles (C : Bytes → Bytes → Bytes) (key : Bytes) :
    List (String × Bytes) → Except String (List (String × Bytes))
  | [] => .ok []
  | (p, e) :: rest =>
    match decryptContent C key e with
    | .error err => .error err
    | .ok content =>
      match decryptFiles C key rest with
      | .error err => .error err
      | .ok files => .ok ((p, content) :: files)

/-- Source `dirlock.EncryptDirectory` as a path-state transform: write the
archive, remove the original tree, rename the archive into place. -/
def EncryptDirectory (C : Bytes → Bytes → Bytes) (key : Bytes)
    (nonceAt : Nat → Bytes) (files : List (String × Bytes)) : PathState :=
  .archiveFile (encryptFiles C key nonceAt 0 files)

/-- Source `dirlock.DecryptDirectory` as a path-state transform: require an
archive at the path (`isEncryptedDirectory`), decrypt every entry into a
temporary directory (removed again by the deferred cleanup on failure), and
only after every entry succeeds replace the archive with the extracted
tree. -/
def DecryptDirectory (C : Bytes → Bytes → Bytes) (key : Bytes)
    (st : PathState) : Except String PathState :=
  match st with
  | .dir _ => .error "directory is not encrypted"
  | .absent => .error "directory is not encrypted"
  | .archiveFile entries =>
    match decryptFiles C key entries with
    | .error err => .error err
    | .ok files => .ok (.dir files)

/-- Error kinds of the dirlock `Service`, one per error site in the source;
message-carrying constructors keep the wrapped message. -/
inductive LockError
  | statFailed
  | notADirectory (path : String)
  | deriveFailed (msg : String)
  | notLocked (path : String)
  | invalidPassword (path : String)
  | decryptFailed (msg : String)
deriving DecidableEq, Repr

/-- Source `Service.Lock(path, useMaster, password, hide)`.  `absPath` is the
resolved absolute path, `salt` the 16 fresh random bytes drawn by
`rand.Read` in the custom-password branch, `nonceAt` the per-file
encryption nonces, `now` the clock.  The `chmod 0000` and `chflags hidden`
side effects carry no state relevant to the claims and are not modelled.
The record is stored only after the encryption transform, in its JSON
image. -/
def Service.Lock (C : Bytes → Bytes → Bytes) (argon2 : String → Bytes → Bytes)
    (salt : Bytes) (nonceAt : Nat → Bytes) (now : Nat) (st : ServiceState)
    (absPath : String) (useMaster : Bool) (password : String) (hide : Bool) :
    ServiceState × Except LockError Unit :=
  match st.path with
  | .absent => (st, .error .statFailed)
  | .archiveFile _ => (st, .error (.notADirectory absPath))
  | .dir files =>
    let keyResult : Except String Bytes :=
      if useMaster then .ok Service.getMasterKey
      else DeriveKey argon2 password salt
    match keyResult with
    | .error msg => (st, .error (.deriveFailed msg))
    | .ok key =>
      let r0 := NewLockedDirectory absPath useMaster hide now
      let r1 := if useMaster then r0 else r0.SetPassword password
      let r2 := r1.SetMetadata "mode" "encrypted"
      ({ path := EncryptDirectory C key nonceAt files,
         lockedDirs := assocPut st.lockedDirs absPath r2.marshalRecord },
       .ok ())

/-- Source `Service.Unlock(path, masterPassword, provided)`: look up the record
(which deserializes with an empty `Password`), run the password check
`pass != provided && !rec.UseMaster`, re-derive the key — the source uses
a fresh all-zero 16-byte salt here instead of a persisted lock-time salt —
decrypt, and delete the record only after the decrypted tree has replaced
the archive. -/
def Service.Unlock (C : Bytes → Bytes → Bytes) (argon2 : String → Bytes → Bytes)
    (st : ServiceState) (absPath masterPassword provided : String) :
    ServiceState × Except LockError Unit :=
  match assocFind st.lockedDirs absPath with
  | none => (st, .error (.notLocked absPath))
  | some recJ =>
    let r := recJ.unmarshalRecord
    if r.GetPassword masterPassword ≠ provided ∧ r.UseMaster = false then
      (st, .error (.invalidPassword absPath))
    else
      let keyResult : Except String Bytes :=
        if r.UseMaster then .ok Service.getMasterKey
        else DeriveKey argon2 provided (List.replicate 16 0)
      match keyResult with
      | .error msg => (st, .error (.deriveFailed msg))
      | .ok key =>
        match DecryptDirectory C key st.path with
        | .error msg => (st, .error (.decryptFailed msg))
        | .ok newPath =>
          ({ path := newPath, lockedDirs := assocErase st.lockedDirs absPath },
           .ok ())

/-!
The master-key lifecycle (`internal/core/config/config.go`).  The cache
file contents, the clock, the interactive password prompt, the cache
encryption key (a SHA-256 hash in the source — external) and the JSON codec
of `cacheEntry` are explicit arguments.
-/

/-- Source `config.cacheEntry`: the decrypted content of the master-key cache. -/
structure CacheEntry where
  Key : Bytes
  ExpiresAt : Nat
deriving DecidableEq, Repr

/-- Source `config.SecurityConfig`. -/
structure SecurityConfig where
  PasswordCacheTimeout : Int
deriving DecidableEq, Repr

/-- The `config.Config` fields driving the master-key lifecycle. -/
structure Config where
  MasterKey : Bytes
  Salt : Bytes
  Security : SecurityConfig
deriving DecidableEq, Repr

/-- Source `Config.loadCachedMasterKey`: the load result plus the cache file left
on disk afterwards (`none` models `os.Remove`).  A missing file is an
error-result miss with nothing to delete; decryption failure, malformed
JSON (`parse` returning `none`) and expiry (`time.Now().After(ExpiresAt)`,
i.e. `now > ExpiresAt`) each delete the file. -/
def loadCachedMasterKey (C : Bytes → Bytes → Bytes)
    (parse : Bytes → Option CacheEntry) (now : Nat) (cacheEncKey : Bytes)
    (cacheFile : Option Bytes) : Except String Bytes × Option Bytes :=
  match cacheFile with
  | none => (.error "cache not found", none)
  | some data =>
    match NewEncryptor cacheEncKey with
    | .error _ => (.error "failed to create encryptor", none)
    | .ok encryptor =>
      match encryptor.Decrypt C data with
      | .error _ => (.error "failed to decrypt cache", none)
      | .ok plaintext =>
        match parse plaintext with
        | none => (.error "failed to unmarshal cache", none)
        | some entry =>
          if now > entry.ExpiresAt then (.error "cache expired", none)
          else (.ok entry.Key, some data)

/-- Observable outcome of `Config.GetMasterKey`: the returned result, the
updated in-memory config, the cache file left on disk, whether the
interactive password prompt ran, and whether the disk cache was read. -/
structure GMKOutcome where
  result : Except String Bytes
  config : Config
  cacheFile : Option Bytes
  prompted : Bool
  cacheChecked : Bool
deriving Repr

/-- The prompt-and-derive tail of `Config.GetMasterKey`, reached on a
cache miss: require a non-empty salt, prompt for the password
(`password.GetMasterPassword`, a blocking interactive suspension modelled
by the `prompt` argument), derive the key via the KDF, and save the new
cache entry with `ExpiresAt = now + timeout` (defaulting the timeout to
300 when non-positive; a failed save is ignored in the source). -/
def getMasterKeyPromptPath (C : Bytes → Bytes → Bytes)
    (argon2 : String → Bytes → Bytes) (ser : CacheEntry → Bytes)
    (saveNonce : Bytes) (now : Nat) (cacheEncKey : Bytes)
    (prompt : Except String String) (c : Config) (cacheFile1 : Option Bytes) :
    GMKOutcome :=
  if c.Salt.length = 0 then
    ⟨.error "no salt found in config - Ark may not be initialized. Run 'ark init' first",
     c, cacheFile1, false, true⟩
  else
    match prompt with
    | .error _ => ⟨.error "failed to get master password", c, cacheFile1, true, true⟩
    | .ok masterPassword =>
      match DeriveKey argon2 masterPassword c.Salt with
      | .error _ => ⟨.error "failed to derive master key", c, cacheFile1, true, true⟩
      | .ok masterKey =>
        let timeout : Int :=
          if c.Security.PasswordCacheTimeout ≤ 0 then 300
          else c.Security.PasswordCacheTimeout
        let entry : CacheEntry := ⟨masterKey, now + timeout.toNat⟩
        let newFile :=
          match NewEncryptor cacheEncKey with
          | .error _ => cacheFile1
          | .ok encryptor => some (encryptor.Encrypt C saveNonce (ser entry))
        ⟨.ok masterKey, { c with MasterKey := masterKey }, newFile, true, true⟩

/-- Source `Config.GetMasterKey`: return the in-memory key if present; otherwise
consult the disk cache; on a hit store the key in memory and return it; on
a miss fall through to the prompt-and-derive path. -/
def Config.GetMasterKey (C : Bytes → Bytes → Bytes)
    (argon2 : String → Bytes → Bytes) (parse : Bytes → Option CacheEntry)
    (ser : CacheEntry → Bytes) (saveNonce : Bytes) (now : Nat)
    (cacheEncKey : Bytes) (prompt : Except String String) (c : Config)
    (cacheFile : Option Bytes) : GMKOutcome :=
  if c.MasterKey.length > 0 then ⟨.ok c.MasterKey, c, cacheFile, false, false⟩
  else
    match loadCachedMasterKey C parse now cacheEncKey cacheFile with
    | (.ok cachedKey, cacheFile1) =>
      if cachedKey.length > 0 then
        ⟨.ok cachedKey, { c with MasterKey := cachedKey }, cacheFile1, false, true⟩
      else
        getMasterKeyPromptPath C argon2 ser saveNonce now cacheEncKey prompt c cacheFile1
    | (.error _, cacheFile1) =>
      getMasterKeyPromptPath C argon2 ser saveNonce now cacheEncKey prompt c cacheFile1

/-- A disk-cache miss as `GetMasterKey` treats it: the load erred, or it
returned an empty key (`err == nil && len(cachedKey) > 0` fails). -/
def cacheMissB (C : Bytes → Bytes → Bytes) (parse : Bytes → Option CacheEntry)
    (now : Nat) (cacheEncKey : Bytes) (cacheFile : Option Bytes) : Bool :=
  match (loadCachedMasterKey C parse now cacheEncKey cacheFile).1 with
  | .error _ => true
  | .ok k => k.length == 0

/-!
Vault entries (`internal/storage/models/vault.go`) and the vault manager
(`internal/features/vault/manager.go`).  Go's metadata values are
`map[string]interface{}`; the claims only compare the whole field, so
values are modelled by `String`.
-/

/-- Source `models.VaultEntry`. -/
structure VaultEntry where
  Key : String
  Value : String
  Format : String
  Description : String
  Tags : List String
  Metadata : List (String × String)
  CreatedAt : Nat
  UpdatedAt : Nat
deriving DecidableEq, Repr

/-- Source `vault.VaultManager.Get`: read the entry from the `vault` bucket, set
`UpdatedAt` to the read time, write the refreshed entry back (the write's
error is discarded in the source, so a failed write keeps the old store),
and return the refreshed entry. -/
def VaultManager.Get (C : Bytes → Bytes → Bytes)
    (marshal : VaultEntry → Bytes) (unmarshal : Bytes → Option VaultEntry)
    (nonce : Bytes) (now : Nat) (d : Database) (key : String) :
    Except DBError VaultEntry × Database :=
  match Database.Get C unmarshal d "vault" key with
  | .error e => (.error e, d)
  | .ok entry =>
    let entry := { entry with UpdatedAt := now }
    match Database.Set C marshal nonce d "vault" key entry with
    | .ok d1 => (.ok entry, d1)
    | .error _ => (.ok entry, d)

/-! Length and inversion lemmas for the GCM model. -/

theorem length_natToBe (k n : Nat) : (natToBe k n).length = k := by
  induction k generalizing n with
  | zero => rfl
  | succ k ih => simp [natToBe, ih]

theorem length_ksBlocks (E : Bytes → Bytes) (nonce : Bytes)
    (hE : ∀ b, (E b).length = 16) (n i : Nat) :
    (ksBlocks E nonce n i).length = 16 * n := by
  induction n generalizing i with
  | zero => rfl
  | succ n ih =>
    simp only [ksBlocks, List.length_append, hE, ih]
    omega

theorem length_keystream (E : Bytes → Bytes) (nonce : Bytes)
    (hE : ∀ b, (E b).length = 16) (len : Nat) :
    (keystream E nonce len).length = len := by
  simp only [keystream, List.length_take, length_ksBlocks E nonce hE]
  omega

theorem length_xorBytes (a b : Bytes) :
    (xorBytes a b).length = min a.length b.length :=
  List.length_zipWith _ _ _

theorem length_gcmTag (E : Bytes → Bytes) (hE : ∀ b, (E b).length = 16)
    (nonce ct : Bytes) : (gcmTag E nonce ct).length = 16 := by
  simp [gcmTag, length_xorBytes, length_natToBe, hE]

theorem xorBytes_cancel (a : Bytes) : ∀ b : Bytes, a.length ≤ b.length →
    xorBytes (xorBytes a b) b = a := by
  induction a with
  | nil => intro b _; rfl
  | cons x xs ih =>
    intro b h
    cases b with
    | nil => exact absurd h (by simp)
    | cons y ys =>
      show ((x ^^^ y) ^^^ y) :: xorBytes (xorBytes xs ys) ys = x :: xs
      rw [Nat.xor_cancel_right, ih ys (by simpa using h)]

theorem ctCompare_self (a : Bytes) : ctCompare a a = true := by
  induction a with
  | nil => rfl
  | cons x xs ih => simp [ctCompare, ih]

theorem gcmOpen_gcmSeal (E : Bytes → Bytes) (hE : ∀ b, (E b).length = 16)
    (nonce p : Bytes) : gcmOpen E nonce (gcmSeal E nonce p) = some p := by
  have hks : (keystream E nonce p.length).length = p.length :=
    length_keystream E nonce hE _
  have hct : (xorBytes p (keystream E nonce p.length)).length = p.length := by
    simp [length_xorBytes, hks]
  have htag := length_gcmTag E hE nonce (xorBytes p (keystream E nonce p.length))
  simp only [gcmSeal, gcmOpen, List.length_append, hct, htag]
  rw [if_neg (by omega)]
  have hsub : p.length + 16 - 16 = (xorBytes p (keystream E nonce p.length)).length := by
    omega
  rw [hsub, List.take_left, List.drop_left, ctCompare_self, if_pos rfl, hct,
    xorBytes_cancel p _ (by omega)]

theorem Decrypt_Encrypt (C : Bytes → Bytes → Bytes) (e : Encryptor)
    (hE : ∀ b, (C e.key b).length = 16)
    (nonce : Bytes) (hn : nonce.length = NonceSize) (p : Bytes) :
    e.Decrypt C (e.Encrypt C nonce p) = .ok p := by
  rw [Encryptor.Encrypt, Encryptor.Decrypt,
    if_neg (by simp [List.length_append, hn]),
    List.take_left' hn, List.drop_left' hn, gcmOpen_gcmSeal (C e.key) hE]

/-- C1. Round-trip of the authenticated-encryption primitive: for every
plaintext byte sequence `p`, every 32-byte key (an `Encryptor` built by
`NewEncryptor`), and every 12-byte nonce, `Decrypt (Encrypt p) = p`.  The
AES block cipher `C` is arbitrary subject only to producing 16-byte blocks,
as real AES does. -/
theorem encrypt_decrypt_roundtrip (C : Bytes → Bytes → Bytes) (key : Bytes)
    (e : Encryptor) (hnew : NewEncryptor key = .ok e)
    (hC : ∀ b, (C key b).length = 16)
    (nonce : Bytes) (hn : nonce.length = NonceSize) (p : Bytes) :
    e.Decrypt C (e.Encrypt C nonce p) = .ok p := by
  have hkey : e.key = key := by
    unfold NewEncryptor at hnew
    split at hnew
    · cases hnew; rfl
    · exact Except.noConfusion hnew
  exact Decrypt_Encrypt C e (by rw [hkey]; exact hC) nonce hn p

/-- Witness for C1 at a concrete key, nonce, block cipher and plaintext. -/
theorem encrypt_decrypt_roundtrip_witness :
    (Encryptor.mk (List.replicate 32 0)).Decrypt (fun _ _ => List.replicate 16 0)
      ((Encryptor.mk (List.replicate 32 0)).Encrypt (fun _ _ => List.replicate 16 0)
        (List.replicate 12 0) [104, 105]) = .ok [104, 105] :=
  encrypt_decrypt_roundtrip (fun _ _ => List.replicate 16 0) (List.replicate 32 0)
    (Encryptor.mk (List.replicate 32 0)) rfl
    (fun _ => by simp) (List.replicate 12 0) (by decide) [104, 105]

theorem assocFind_put_self {α : Type} (l : List (String × α)) (k : String) (v : α) :
    assocFind (assocPut l k v) k = some v := by
  induction l with
  | nil => simp [assocPut, assocFind]
  | cons p rest ih =>
    obtain ⟨n, w⟩ := p
    by_cases h : n = k
    · simp [assocPut, h, assocFind]
    · simp [assocPut, h, assocFind, ih]

theorem assocFind_erase_self {α : Type} (l : List (String × α)) (k : String) :
    assocFind (assocErase l k) k = none := by
  induction l with
  | nil => rfl
  | cons p rest ih =>
    obtain ⟨n, w⟩ := p
    by_cases h : n = k
    · simp [assocErase, h, ih]
    · simp [assocErase, h, assocFind, ih]

theorem assocErase_of_absent {α : Type} (l : List (String × α)) (k : String)
    (h : assocFind l k = none) : assocErase l k = l := by
  induction l with
  | nil => rfl
  | cons p rest ih =>
    obtain ⟨n, w⟩ := p
    by_cases hn : n = k
    · simp [assocFind, hn] at h
    · simp [assocFind, hn] at h
      simp [assocErase, hn, ih h]

theorem assocPut_of_found {α : Type} (l : List (String × α)) (k : String) (v : α)
    (h : assocFind l k = some v) : assocPut l k v = l := by
  induction l with
  | nil => simp [assocFind] at h
  | cons p rest ih =>
    obtain ⟨n, w⟩ := p
    by_cases hn : n = k
    · simp [assocFind, hn] at h
      simp [assocPut, hn, h]
    · simp [assocFind, hn] at h
      simp [assocPut, hn, ih h]

/-- C2. Store round-trip: in an existing bucket, `Set` then `Get`
decodes back to the written value and `Exists` is true; after `Delete`,
`Get` fails with the not-found error and `Exists` is false. -/
theorem database_set_get_roundtrip {α : Type} (C : Bytes → Bytes → Bytes)
    (marshal : α → Bytes) (unmarshal : Bytes → Option α)
    (d : Database) (bucket key : String) (v : α) (nonce : Bytes)
    (bkt : List (String × Bytes))
    (hC : ∀ b, (C d.enc.key b).length = 16)
    (hnonce : nonce.length = NonceSize)
    (hcodec : unmarshal (marshal v) = some v)
    (hbucket : assocFind d.buckets bucket = some bkt) :
    ∃ d', d.Set C marshal nonce bucket key v = .ok d' ∧
      d'.Get C unmarshal bucket key = .ok v ∧
      d'.Exists bucket key = .ok true ∧
      ∃ d'', d'.Delete bucket key = .ok d'' ∧
        d''.Get C unmarshal bucket key = .error (.keyNotFound key bucket) ∧
        d''.Exists bucket key = .ok false := by
  have hrt := Decrypt_Encrypt C d.enc hC nonce hnonce (marshal v)
  refine ⟨Database.mk d.enc (assocPut d.buckets bucket
      (assocPut bkt key (d.enc.Encrypt C nonce (marshal v)))), ?_, ?_, ?_,
    Database.mk d.enc (assocPut (assocPut d.buckets bucket
      (assocPut bkt key (d.enc.Encrypt C nonce (marshal v)))) bucket
      (assocErase (assocPut bkt key (d.enc.Encrypt C nonce (marshal v))) key)),
    ?_, ?_, ?_⟩
  · simp only [Database.Set, hbucket]
  · simp only [Database.Get, assocFind_put_self, hrt, hcodec]
  · simp only [Database.Exists, assocFind_put_self, Option.isSome_some]
  · simp only [Database.Delete, assocFind_put_self]
  · simp only [Database.Get, assocFind_put_self, assocFind_erase_self]
  · simp only [Database.Exists, assocFind_put_self, assocFind_erase_self,
      Option.isSome_none]

/-- Witness for C2: a one-bucket store, identity-style codec, value `5`. -/
theorem database_set_get_roundtrip_witness :
    ∃ d', (Database.mk ⟨List.replicate 32 0⟩ [("vault", [])]).Set
        (fun _ _ => List.replicate 16 0) (fun n : Nat => [n])
        (List.replicate 12 0) "vault" "db-pass" 5 = .ok d' ∧
      d'.Get (fun _ _ => List.replicate 16 0)
        (fun bs => match bs with | [n] => some n | _ => none) "vault" "db-pass" = .ok 5 ∧
      d'.Exists "vault" "db-pass" = .ok true ∧
      ∃ d'', d'.Delete "vault" "db-pass" = .ok d'' ∧
        d''.Get (fun _ _ => List.replicate 16 0)
          (fun bs => match bs with | [n] => some n | _ => none) "vault" "db-pass" =
          .error (.keyNotFound "db-pass" "vault") ∧
        d''.Exists "vault" "db-pass" = .ok false :=
  database_set_get_roundtrip (fun _ _ => List.replicate 16 0) (fun n : Nat => [n])
    (fun bs => match bs with | [n] => some n | _ => none)
    (Database.mk ⟨List.replicate 32 0⟩ [("vault", [])]) "vault" "db-pass" 5
    (List.replicate 12 0) [] (fun _ => by simp) (by decide) rfl rfl

/-- C8. `Delete` of an absent key in an existing bucket returns no error
and leaves the store state unchanged; `Delete` in a non-existent bucket
returns an error. -/
theorem database_delete_absent (d : Database) (bucket key : String)
    (bkt : List (String × Bytes))
    (hbucket : assocFind d.buckets bucket = some bkt)
    (habsent : assocFind bkt key = none) :
    d.Delete bucket key = .ok d ∧
      ∀ b', assocFind d.buckets b' = none →
        d.Delete b' key = .error (.bucketNotFound b') := by
  constructor
  · simp only [Database.Delete, hbucket, assocErase_of_absent bkt key habsent,
      assocPut_of_found d.buckets bucket bkt hbucket]
  · intro b' hb'
    simp only [Database.Delete, hb']

/-- Witness for C8: empty `vault` bucket, absent key, missing bucket. -/
theorem database_delete_absent_witness :
    (Database.mk ⟨List.replicate 32 0⟩ [("vault", [])]).Delete "vault" "nope" =
      .ok (Database.mk ⟨List.replicate 32 0⟩ [("vault", [])]) ∧
    ∀ b', assocFind (Database.mk ⟨List.replicate 32 0⟩ [("vault", [])]).buckets b' = none →
      (Database.mk ⟨List.replicate 32 0⟩ [("vault", [])]).Delete b' "nope" =
        .error (.bucketNotFound b') :=
  database_delete_absent (Database.mk ⟨List.replicate 32 0⟩ [("vault", [])])
    "vault" "nope" [] rfl rfl

/-- C10. The persisted bytes of a `LockedDirectoryRecord` are
independent of the custom password: `Password` is tagged `json:"-"`, so
records differing only in their password field serialize identically; every
record read back has an empty `Password`; and for a custom-password record
the rejection check of `Unlock` (`pass != provided && !rec.UseMaster`) on
the round-tripped record compares `provided` against that empty field. -/
theorem lockedDirectory_password_not_persisted (d : LockedDirectory)
    (p₁ p₂ masterPassword provided : String) :
    ({ d with Password := p₁ } : LockedDirectory).marshalRecord =
      ({ d with Password := p₂ } : LockedDirectory).marshalRecord ∧
    d.marshalRecord.unmarshalRecord.Password = "" ∧
    (d.UseMaster = false →
      ((d.marshalRecord.unmarshalRecord.GetPassword masterPassword ≠ provided ∧
        d.marshalRecord.unmarshalRecord.UseMaster = false) ↔ provided ≠ "")) := by
  refine ⟨rfl, rfl, fun hm => ?_⟩
  simp [LockedDirectory.marshalRecord, LockedDirectoryJSON.unmarshalRecord,
    LockedDirectory.GetPassword, hm]
  exact ne_comm

/-- Witness for C10 at a concrete record with two distinct passwords. -/
theorem lockedDirectory_password_not_persisted_witness :
    ({ Path := "/tmp/x", Password := "alpha", UseMaster := false, Hidden := false,
       Encrypted := true, LockedAt := 5, LastAccessed := 0, Metadata := [] } :
       LockedDirectory).marshalRecord =
      ({ Path := "/tmp/x", Password := "beta", UseMaster := false, Hidden := false,
         Encrypted := true, LockedAt := 5, LastAccessed := 0, Metadata := [] } :
         LockedDirectory).marshalRecord ∧
    (⟨"/tmp/x", "alpha", false, false, true, 5, 0, []⟩ :
      LockedDirectory).marshalRecord.unmarshalRecord.Password = "" :=
  ⟨((lockedDirectory_password_not_persisted
      ⟨"/tmp/x", "x", false, false, true, 5, 0, []⟩ "alpha" "beta" "m" "p").1),
   ((lockedDirectory_password_not_persisted
      ⟨"/tmp/x", "alpha", false, false, true, 5, 0, []⟩ "a" "b" "m" "p").2.1)⟩

/-- Lemma: `crypto.DeriveKey` rejects every 16-byte salt: the salt-size check
demands 32 bytes. -/
theorem deriveKey_salt16 (argon2 : String → Bytes → Bytes) (password : String)
    (salt : Bytes) (h : salt.length = 16) :
    DeriveKey argon2 password salt =
      .error "invalid salt size: expected 32 bytes, got 16" := by
  rw [DeriveKey, h, if_neg (by norm_num [SaltSize])]
  rfl

/-- C3 (code defect).  The claim says the lock-time salt is persisted in
the record and reused at unlock.  In the source, `Lock` draws a 16-byte salt
that the 32-byte check of `crypto.DeriveKey` rejects, so every
custom-password lock fails at key derivation before anything is persisted;
the record type has no salt field; and `Unlock` re-derives from a
hard-coded all-zero 16-byte salt, which the same check equally rejects. -/
theorem lock_salt_not_persisted (C : Bytes → Bytes → Bytes)
    (argon2 : String → Bytes → Bytes) (salt : Bytes) (nonceAt : Nat → Bytes)
    (now : Nat) (st : ServiceState) (absPath password : String) (hide : Bool)
    (files : List (String × Bytes))
    (hdir : st.path = .dir files) (hsalt : salt.length = 16) :
    Service.Lock C argon2 salt nonceAt now st absPath false password hide =
      (st, .error (.deriveFailed "invalid salt size: expected 32 bytes, got 16")) ∧
    DeriveKey argon2 password (List.replicate 16 0) =
      .error "invalid salt size: expected 32 bytes, got 16" := by
  constructor
  · simp only [Service.Lock, hdir, deriveKey_salt16 argon2 password salt hsalt,
      Bool.false_eq_true, if_false]
  · exact deriveKey_salt16 argon2 password (List.replicate 16 0) (by simp)

/-- Witness for C3 at a concrete state and 16-byte salt. -/
theorem lock_salt_not_persisted_witness :
    Service.Lock (fun _ _ => List.replicate 16 0) (fun _ _ => List.replicate 32 0)
      (List.replicate 16 7) (fun _ => List.replicate 12 0) 0
      ⟨.dir [("a.txt", [104])], []⟩ "/tmp/d" false "pw" false =
      (⟨.dir [("a.txt", [104])], []⟩,
       .error (.deriveFailed "invalid salt size: expected 32 bytes, got 16")) :=
  (lock_salt_not_persisted (fun _ _ => List.replicate 16 0)
    (fun _ _ => List.replicate 32 0) (List.replicate 16 7)
    (fun _ => List.replicate 12 0) 0 ⟨.dir [("a.txt", [104])], []⟩
    "/tmp/d" "pw" false [("a.txt", [104])] rfl (by decide)).1

/-- C4 (code defect).  At a concrete directory containing
`a.txt = "hello"`, locking with a custom password fails outright — the
16-byte lock salt is rejected by the KDF's 32-byte check — leaving the
state unchanged, so `Unlock(Lock(dir, pw))` cannot reconstruct anything for
password locks. -/
theorem lock_unlock_roundtrip_fails_for_password :
    Service.Lock (fun _ _ => List.replicate 16 0) (fun _ _ => List.replicate 32 0)
      (List.replicate 16 7) (fun _ => List.replicate 12 0) 0
      ⟨.dir [("a.txt", [104, 101, 108, 108, 111])], []⟩ "/tmp/d" false "secret" false =
      (⟨.dir [("a.txt", [104, 101, 108, 108, 111])], []⟩,
       .error (.deriveFailed "invalid salt size: expected 32 bytes, got 16")) := by
  rfl

/-- C5. If decrypting any archive entry fails during `Unlock`, the
operation errors and the state is returned untouched: the encrypted archive
is still at the original path and the record is still in the store.  And
whenever `Unlock` succeeds, the archive has been replaced by the fully
decrypted tree and only then was the record removed. -/
theorem unlock_failure_atomicity (C : Bytes → Bytes → Bytes)
    (argon2 : String → Bytes → Bytes) (st : ServiceState)
    (absPath masterPassword provided : String)
    (recJ : LockedDirectoryJSON) (entries : List (String × Bytes)) (msg : String)
    (hrec : assocFind st.lockedDirs absPath = some recJ)
    (hmaster : recJ.UseMaster = true)
    (harch : st.path = .archiveFile entries)
    (hfail : decryptFiles C Service.getMasterKey entries = .error msg) :
    Service.Unlock C argon2 st absPath masterPassword provided =
      (st, .error (.decryptFailed msg)) ∧
    ∀ (st₂ st₂' : ServiceState),
      Service.Unlock C argon2 st₂ absPath masterPassword provided = (st₂', .ok ()) →
      st₂'.lockedDirs = assocErase st₂.lockedDirs absPath ∧
      assocFind st₂'.lockedDirs absPath = none ∧
      ∃ key entries₂ files, st₂.path = .archiveFile entries₂ ∧
        decryptFiles C key entries₂ = .ok files ∧ st₂'.path = .dir files := by
  constructor
  · simp only [Service.Unlock, hrec, LockedDirectoryJSON.unmarshalRecord,
      LockedDirectory.GetPassword, hmaster, harch]
    rw [if_neg (by simp)]
    simp only [if_true, DecryptDirectory, hfail]
  · intro st₂ st₂' h
    rw [Service.Unlock] at h
    cases hfind : assocFind st₂.lockedDirs absPath with
    | none => rw [hfind] at h; simp at h
    | some recJ₂ =>
      rw [hfind] at h
      simp only [LockedDirectoryJSON.unmarshalRecord, LockedDirectory.GetPassword] at h
      by_cases hum : recJ₂.UseMaster
      · rw [if_neg (by simp [hum]), if_pos hum] at h
        cases hpath : st₂.path with
        | dir files => rw [hpath] at h; simp [DecryptDirectory] at h
        | absent => rw [hpath] at h; simp [DecryptDirectory] at h
        | archiveFile entries₂ =>
          rw [hpath] at h
          cases hdec : decryptFiles C Service.getMasterKey entries₂ with
          | error e => simp only [DecryptDirectory, hdec] at h; simp at h
          | ok files =>
            simp only [DecryptDirectory, hdec] at h
            injection h with h1 h2
            subst h1
            exact ⟨rfl, assocFind_erase_self _ _,
              Service.getMasterKey, entries₂, files, rfl, hdec, rfl⟩
      · by_cases hpw : (if recJ₂.UseMaster then masterPassword else "") = provided
        · rw [if_neg (by simp [hpw]), if_neg hum,
            deriveKey_salt16 argon2 provided _ (by simp)] at h
          simp at h
        · rw [if_pos ⟨hpw, by simpa using hum⟩] at h
          simp at h

/-- Witness for C5: a one-entry archive whose entry is too short to contain
a nonce, so decryption fails; the state is returned unchanged. -/
theorem unlock_failure_atomicity_witness :
    Service.Unlock (fun _ _ => List.replicate 16 0) (fun _ _ => List.replicate 32 0)
      ⟨.archiveFile [("a.txt", [0])],
        [("/tmp/d", ⟨"/tmp/d", true, false, true, 5, 0, []⟩)]⟩
      "/tmp/d" "master" "master" =
      (⟨.archiveFile [("a.txt", [0])],
         [("/tmp/d", ⟨"/tmp/d", true, false, true, 5, 0, []⟩)]⟩,
       .error (.decryptFailed "ciphertext too short")) :=
  (unlock_failure_atomicity (fun _ _ => List.replicate 16 0)
    (fun _ _ => List.replicate 32 0)
    ⟨.archiveFile [("a.txt", [0])],
      [("/tmp/d", ⟨"/tmp/d", true, false, true, 5, 0, []⟩)]⟩
    "/tmp/d" "master" "master" ⟨"/tmp/d", true, false, true, 5, 0, []⟩
    [("a.txt", [0])] "ciphertext too short" rfl rfl rfl rfl).1

/-- The prompt path always runs the interactive prompt when the salt is
non-empty, whatever the prompt and derivation results. -/
theorem promptPath_prompted (C : Bytes → Bytes → Bytes)
    (argon2 : String → Bytes → Bytes) (ser : CacheEntry → Bytes)
    (saveNonce : Bytes) (now : Nat) (cacheEncKey : Bytes)
    (prompt : Except String String) (c : Config) (cf1 : Option Bytes)
    (h : c.Salt.length ≠ 0) :
    (getMasterKeyPromptPath C argon2 ser saveNonce now cacheEncKey prompt c
      cf1).prompted = true := by
  unfold getMasterKeyPromptPath
  rw [if_neg h]
  cases prompt with
  | error e => rfl
  | ok pw =>
    cases hd : DeriveKey argon2 pw c.Salt with
    | error e => simp [hd]
    | ok mk => simp [hd]

/-- With no in-memory key and a failing disk-cache load, `GetMasterKey`
falls through to the prompt. -/
theorem getMasterKey_prompts_on_load_error (C : Bytes → Bytes → Bytes)
    (argon2 : String → Bytes → Bytes) (parse : Bytes → Option CacheEntry)
    (ser : CacheEntry → Bytes) (saveNonce : Bytes) (now : Nat)
    (cacheEncKey : Bytes) (prompt : Except String String) (c : Config)
    (cacheFile : Option Bytes) (e : String) (cf1 : Option Bytes)
    (h1 : c.MasterKey = []) (h2 : c.Salt.length ≠ 0)
    (hl : loadCachedMasterKey C parse now cacheEncKey cacheFile = (.error e, cf1)) :
    (Config.GetMasterKey C argon2 parse ser saveNonce now cacheEncKey prompt c
      cacheFile).prompted = true := by
  rw [Config.GetMasterKey, if_neg (by simp [h1]), hl]
  exact promptPath_prompted C argon2 ser saveNonce now cacheEncKey prompt c cf1 h2

/-- C6.  `GetMasterKey` returns the in-memory key unchanged — without
prompting and without reading the disk cache — whenever one is held; and on
a disk-cache miss with an empty salt it fails with the not-initialized
error, without prompting. -/
theorem getMasterKey_memory_and_notInitialized (C : Bytes → Bytes → Bytes)
    (argon2 : String → Bytes → Bytes) (parse : Bytes → Option CacheEntry)
    (ser : CacheEntry → Bytes) (saveNonce : Bytes) (now : Nat)
    (cacheEncKey : Bytes) (prompt : Except String String) (c : Config)
    (cacheFile : Option Bytes) :
    (0 < c.MasterKey.length →
      Config.GetMasterKey C argon2 parse ser saveNonce now cacheEncKey prompt c
        cacheFile = ⟨.ok c.MasterKey, c, cacheFile, false, false⟩) ∧
    (c.MasterKey = [] → c.Salt = [] →
      cacheMissB C parse now cacheEncKey cacheFile = true →
      (Config.GetMasterKey C argon2 parse ser saveNonce now cacheEncKey prompt c
        cacheFile).result =
        .error "no salt found in config - Ark may not be initialized. Run 'ark init' first" ∧
      (Config.GetMasterKey C argon2 parse ser saveNonce now cacheEncKey prompt c
        cacheFile).prompted = false) := by
  constructor
  · intro h
    rw [Config.GetMasterKey, if_pos h]
  · intro h1 h2 h3
    rw [cacheMissB] at h3
    rw [Config.GetMasterKey, if_neg (by simp [h1])]
    rcases hl : loadCachedMasterKey C parse now cacheEncKey cacheFile with ⟨res, cf1⟩
    rw [hl] at h3
    cases res with
    | error e => simp [getMasterKeyPromptPath, h2]
    | ok k =>
      have hk : k.length = 0 := by simpa using h3
      simp [getMasterKeyPromptPath, h2, hk]

/-- Witness for C6: an in-memory key, and separately an uninitialized
config (no key, no salt, no cache file). -/
theorem getMasterKey_memory_and_notInitialized_witness :
    (Config.GetMasterKey (fun _ _ => List.replicate 16 0)
        (fun _ _ => List.replicate 32 0) (fun _ => none) (fun _ => [])
        (List.replicate 12 0) 100 (List.replicate 32 1) (.ok "pw")
        ⟨List.replicate 32 2, List.replicate 32 3, ⟨300⟩⟩ none =
      ⟨.ok (List.replicate 32 2), ⟨List.replicate 32 2, List.replicate 32 3, ⟨300⟩⟩,
        none, false, false⟩) ∧
    ((Config.GetMasterKey (fun _ _ => List.replicate 16 0)
        (fun _ _ => List.replicate 32 0) (fun _ => none) (fun _ => [])
        (List.replicate 12 0) 100 (List.replicate 32 1) (.ok "pw")
        ⟨[], [], ⟨300⟩⟩ none).result =
      .error "no salt found in config - Ark may not be initialized. Run 'ark init' first" ∧
      (Config.GetMasterKey (fun _ _ => List.replicate 16 0)
        (fun _ _ => List.replicate 32 0) (fun _ => none) (fun _ => [])
        (List.replicate 12 0) 100 (List.replicate 32 1) (.ok "pw")
        ⟨[], [], ⟨300⟩⟩ none).prompted = false) :=
  ⟨(getMasterKey_memory_and_notInitialized (fun _ _ => List.replicate 16 0)
      (fun _ _ => List.replicate 32 0) (fun _ => none) (fun _ => [])
      (List.replicate 12 0) 100 (List.replicate 32 1) (.ok "pw")
      ⟨List.replicate 32 2, List.replicate 32 3, ⟨300⟩⟩ none).1 (by simp),
   (getMasterKey_memory_and_notInitialized (fun _ _ => List.replicate 16 0)
      (fun _ _ => List.replicate 32 0) (fun _ => none) (fun _ => [])
      (List.replicate 12 0) 100 (List.replicate 32 1) (.ok "pw")
      ⟨[], [], ⟨300⟩⟩ none).2 rfl rfl rfl⟩

/-- C7.  Self-healing of the on-disk master-key cache: a missing file is
a miss and not a surfaced error; a file that fails decryption, fails JSON
parsing, or is expired is deleted and treated as a miss — in every case the
next `GetMasterKey` (no in-memory key, initialized salt) falls through to
prompting instead of failing permanently. -/
theorem loadCachedMasterKey_selfheal (C : Bytes → Bytes → Bytes)
    (argon2 : String → Bytes → Bytes) (parse : Bytes → Option CacheEntry)
    (ser : CacheEntry → Bytes) (saveNonce : Bytes) (now : Nat)
    (cacheEncKey : Bytes) (prompt : Except String String) (c : Config)
    (cacheFile : Option Bytes)
    (hck : cacheEncKey.length = KeySize)
    (h1 : c.MasterKey = []) (h2 : c.Salt.length ≠ 0) :
    (cacheFile = none →
      loadCachedMasterKey C parse now cacheEncKey cacheFile =
        (.error "cache not found", none) ∧
      (Config.GetMasterKey C argon2 parse ser saveNonce now cacheEncKey prompt c
        cacheFile).prompted = true) ∧
    (∀ data e, cacheFile = some data →
      (Encryptor.mk cacheEncKey).Decrypt C data = .error e →
      loadCachedMasterKey C parse now cacheEncKey cacheFile =
        (.error "failed to decrypt cache", none) ∧
      (Config.GetMasterKey C argon2 parse ser saveNonce now cacheEncKey prompt c
        cacheFile).prompted = true) ∧
    (∀ data pt, cacheFile = some data →
      (Encryptor.mk cacheEncKey).Decrypt C data = .ok pt → parse pt = none →
      loadCachedMasterKey C parse now cacheEncKey cacheFile =
        (.error "failed to unmarshal cache", none) ∧
      (Config.GetMasterKey C argon2 parse ser saveNonce now cacheEncKey prompt c
        cacheFile).prompted = true) ∧
    (∀ data pt entry, cacheFile = some data →
      (Encryptor.mk cacheEncKey).Decrypt C data = .ok pt →
      parse pt = some entry → now > entry.ExpiresAt →
      loadCachedMasterKey C parse now cacheEncKey cacheFile =
        (.error "cache expired", none) ∧
      (Config.GetMasterKey C argon2 parse ser saveNonce now cacheEncKey prompt c
        cacheFile).prompted = true) := by
  have hnew : NewEncryptor cacheEncKey = .ok ⟨cacheEncKey⟩ := by
    rw [NewEncryptor, if_pos hck]
  refine ⟨fun hnone => ?_, fun data e hsome hdec => ?_, fun data pt hsome hdec hparse => ?_,
    fun data pt entry hsome hdec hparse hexp => ?_⟩
  · have hl : loadCachedMasterKey C parse now cacheEncKey cacheFile =
        (.error "cache not found", none) := by rw [hnone]; rfl
    exact ⟨hl, getMasterKey_prompts_on_load_error C argon2 parse ser saveNonce now
      cacheEncKey prompt c cacheFile _ _ h1 h2 hl⟩
  · have hl : loadCachedMasterKey C parse now cacheEncKey cacheFile =
        (.error "failed to decrypt cache", none) := by
      simp only [hsome, loadCachedMasterKey, hnew, hdec]
    exact ⟨hl, getMasterKey_prompts_on_load_error C argon2 parse ser saveNonce now
      cacheEncKey prompt c cacheFile _ _ h1 h2 hl⟩
  · have hl : loadCachedMasterKey C parse now cacheEncKey cacheFile =
        (.error "failed to unmarshal cache", none) := by
      simp only [hsome, loadCachedMasterKey, hnew, hdec, hparse]
    exact ⟨hl, getMasterKey_prompts_on_load_error C argon2 parse ser saveNonce now
      cacheEncKey prompt c cacheFile _ _ h1 h2 hl⟩
  · have hl : loadCachedMasterKey C parse now cacheEncKey cacheFile =
        (.error "cache expired", none) := by
      simp only [hsome, loadCachedMasterKey, hnew, hdec, hparse, hexp, if_true]
    exact ⟨hl, getMasterKey_prompts_on_load_error C argon2 parse ser saveNonce now
      cacheEncKey prompt c cacheFile _ _ h1 h2 hl⟩

/-- Witness for C7: a garbage cache file too short to decrypt is deleted
and the next `GetMasterKey` prompts. -/
theorem loadCachedMasterKey_selfheal_witness :
    loadCachedMasterKey (fun _ _ => List.replicate 16 0) (fun _ => none) 100
      (List.replicate 32 1) (some [1, 2, 3]) =
      (.error "failed to decrypt cache", none) ∧
    (Config.GetMasterKey (fun _ _ => List.replicate 16 0)
      (fun _ _ => List.replicate 32 0) (fun _ => none) (fun _ => [])
      (List.replicate 12 0) 100 (List.replicate 32 1) (.ok "pw")
      ⟨[], List.replicate 32 3, ⟨300⟩⟩ (some [1, 2, 3])).prompted = true :=
  ((loadCachedMasterKey_selfheal (fun _ _ => List.replicate 16 0)
      (fun _ _ => List.replicate 32 0) (fun _ => none) (fun _ => [])
      (List.replicate 12 0) 100 (List.replicate 32 1) (.ok "pw")
      ⟨[], List.replicate 32 3, ⟨300⟩⟩ (some [1, 2, 3]) rfl rfl
      (by simp)).2.1 [1, 2, 3] "ciphertext too short" rfl rfl)

/-- C9.  `VaultManager.Get` on an existing entry returns it with
`UpdatedAt` bumped to the read time and every other field unchanged, and
writes exactly that refreshed entry back to the `vault` bucket. -/
theorem vaultManager_get_touches_updatedAt (C : Bytes → Bytes → Bytes)
    (marshal : VaultEntry → Bytes) (unmarshal : Bytes → Option VaultEntry)
    (nonce : Bytes) (now : Nat) (d : Database) (key : String)
    (e : VaultEntry) (bkt : List (String × Bytes))
    (hC : ∀ b, (C d.enc.key b).length = 16) (hnonce : nonce.length = NonceSize)
    (hbucket : assocFind d.buckets "vault" = some bkt)
    (hget : Database.Get C unmarshal d "vault" key = .ok e)
    (hcodec : unmarshal (marshal { e with UpdatedAt := now }) =
      some { e with UpdatedAt := now }) :
    ∃ r d1, VaultManager.Get C marshal unmarshal nonce now d key = (.ok r, d1) ∧
      r.Key = e.Key ∧ r.Value = e.Value ∧ r.Format = e.Format ∧
      r.Description = e.Description ∧ r.Tags = e.Tags ∧ r.Metadata = e.Metadata ∧
      r.CreatedAt = e.CreatedAt ∧ r.UpdatedAt = now ∧
      Database.Get C unmarshal d1 "vault" key = .ok r := by
  have hrt := Decrypt_Encrypt C d.enc hC nonce hnonce
    (marshal { e with UpdatedAt := now })
  refine ⟨{ e with UpdatedAt := now },
    Database.mk d.enc (assocPut d.buckets "vault" (assocPut bkt key
      (d.enc.Encrypt C nonce (marshal { e with UpdatedAt := now })))),
    ?_, rfl, rfl, rfl, rfl, rfl, rfl, rfl, rfl, ?_⟩
  · rw [VaultManager.Get, hget]
    simp only [Database.Set, hbucket]
  · simp only [Database.Get, assocFind_put_self, hrt, hcodec]

set_option maxRecDepth 8000 in
/-- Witness for C9 at a concrete store holding one vault entry. -/
theorem vaultManager_get_touches_updatedAt_witness :
    ∃ r d1, VaultManager.Get (fun _ _ => List.replicate 16 0) (fun _ => [])
        (fun _ => some ⟨"db-pass", "s3cr3t", "text", "", [], [], 4, 9⟩)
        (List.replicate 12 0) 9
        (Database.mk ⟨List.replicate 32 0⟩
          [("vault", [("db-pass",
            (Encryptor.mk (List.replicate 32 0)).Encrypt
              (fun _ _ => List.replicate 16 0) (List.replicate 12 0) [])])])
        "db-pass" = (.ok r, d1) ∧
      r.Key = "db-pass" ∧ r.Value = "s3cr3t" ∧ r.Format = "text" ∧
      r.Description = "" ∧ r.Tags = ([] : List String) ∧
      r.Metadata = ([] : List (String × String)) ∧ r.CreatedAt = 4 ∧
      r.UpdatedAt = 9 ∧
      Database.Get (fun _ _ => List.replicate 16 0)
        (fun _ => some ⟨"db-pass", "s3cr3t", "text", "", [], [], 4, 9⟩)
        d1 "vault" "db-pass" = .ok r :=
  vaultManager_get_touches_updatedAt (fun _ _ => List.replicate 16 0) (fun _ => [])
    (fun _ => some ⟨"db-pass", "s3cr3t", "text", "", [], [], 4, 9⟩)
    (List.replicate 12 0) 9
    (Database.mk ⟨List.replicate 32 0⟩
      [("vault", [("db-pass",
        (Encryptor.mk (List.replicate 32 0)).Encrypt
          (fun _ _ => List.replicate 16 0) (List.replicate 12 0) [])])])
    "db-pass" ⟨"db-pass", "s3cr3t", "text", "", [], [], 4, 9⟩
    [("db-pass",
      (Encryptor.mk (List.replicate 32 0)).Encrypt
        (fun _ _ => List.replicate 16 0) (List.replicate 12 0) [])]
    (fun _ => by simp) (by decide) rfl
    (by
      have hrt := Decrypt_Encrypt (fun _ _ => List.replicate 16 0)
        (Encryptor.mk (List.replicate 32 0)) (fun _ => by simp)
        (List.replicate 12 0) rfl []
      simp at hrt
      simp [Database.Get, assocFind, hrt])
    rfl

end Ark
